import Mathlib

/-!
Verification of the update-subscription engine of koishi-plugin-mcmod
(src/src/notify.ts): a shallow embedding of the change detector, the
scheduler gate, the subscription enumeration, the add command and the
persistence layer, together with theorems about them.

Conventions of the embedding:
* JavaScript strings are Lean `String`s; `String(x || "").trim()` becomes
  `String.trim`.
* A JavaScript number that may be `NaN` (the result of `Number(x)` on a
  non-numeric value) is `Option Int`: `none` is `NaN`, `some n` a finite
  number.  The truthiness-based default operator `a || b` on numbers is
  `jsOrNum` (`NaN` and `0` are falsy); on strings it is `jsOrStr` (only
  the empty string is falsy).
* A value of type `string | undefined` is `Option String`; the falsiness
  test `!x` on it is `jsFalsyOptStr` (both `undefined` and `""` are falsy).
* Exceptions are `Except String`; state mutation is explicit value passing;
  the side effects performed by a check (creating, updating the persisted
  version state, invoking the notifier) are recorded as an event list in
  program order.
-/

namespace Notify

/-- PlatformKey models the result type of `normalizePlatform`:
the two supported platforms, `"mr"` (Modrinth) and `"cf"` (CurseForge). -/
inductive PlatformKey where
  | mr
  | cf
deriving DecidableEq, Repr

/-- String form of a platform key, as the code stores it in config entries. -/
def PlatformKey.toStr : PlatformKey → String
  | .mr => "mr"
  | .cf => "cf"

/-- Embeds `normalizePlatform` (notify.ts lines 10-13): returns the platform
key when the input is exactly the string `"mr"` or `"cf"`, otherwise null. -/
def normalizePlatform (platform : String) : Option PlatformKey :=
  if platform = "mr" then some .mr
  else if platform = "cf" then some .cf
  else none

/-- Embeds the JavaScript expression `a || b` for a number `a` that may be
`NaN` (`none`) — `NaN` and `0` are falsy, every other number truthy. -/
def jsOrNum (a : Option Int) (b : Int) : Int :=
  match a with
  | none => b
  | some v => if v = 0 then b else v

/-- Embeds the JavaScript expression `a || b` for strings: only the empty
string is falsy. -/
def jsOrStr (a b : String) : String :=
  if a = "" then b else a

/-- Embeds the JavaScript falsiness test `!x` for `x : string | undefined`:
true exactly on `undefined` and the empty string. -/
def jsFalsyOptStr : Option String → Bool
  | none => true
  | some s => s = ""

/-- LatestRecord models the record returned by `getLatestModrinth` /
`getLatestCurseForge` (notify.ts lines 329-364): the fields of the most
recent version of a project.  Fields other than `version` are carried so
that theorems can state that they do not influence change detection. -/
structure LatestRecord where
  versionId : String
  version : String
  changelog : String
  datePublished : Option String
  fileName : String
deriving DecidableEq, Repr

/-- StateRec models a Version-State Store entry `{ lastVersion?: string }`
(the values of `stateCache`, notify.ts line 154). -/
structure StateRec where
  lastVersion : Option String
deriving DecidableEq, Repr

/-- NotifyEv records, in program order, the side effects a check performs:
`stateCreated v` for `createState(..., v)`, `stateUpdated v` for
`updateState(..., v)`, `notifySent` for a `sendUpdate` call whose
render/delivery succeeded, and `notifyFailed msg` for a `sendUpdate` call
whose render/delivery threw (the exception is caught and logged inside
`sendUpdate`, notify.ts lines 383-385). -/
inductive NotifyEv where
  | stateCreated (v : String)
  | stateUpdated (v : String)
  | notifySent
  | notifyFailed (msg : String)
deriving DecidableEq, Repr

/-- Embeds `sendUpdate` (notify.ts lines 366-386): the whole body sits in a
try/catch, so a throwing render or delivery is caught and logged and the
function always returns normally; the resulting event records whether the
notification was delivered or the exception was swallowed. -/
def sendUpdate (render : Except String Unit) : NotifyEv :=
  match render with
  | .ok _ => .notifySent
  | .error msg => .notifyFailed msg

/-- Count of `sendUpdate` invocations (delivered or failed) in an event
list: how many times the notification side effect was invoked. -/
def notifyAttempts (evs : List NotifyEv) : Nat :=
  evs.countP fun ev =>
    match ev with
    | .notifySent => true
    | .notifyFailed _ => true
    | _ => false

/-- Replays the state-mutating events of a check onto a persisted state
entry, giving the entry after the check: both `createState` and
`updateState` set the cache entry to `{ lastVersion }` (notify.ts lines
244-256). -/
def applyEvents (s : Option StateRec) (evs : List NotifyEv) : Option StateRec :=
  evs.foldl
    (fun acc ev =>
      match ev with
      | .stateCreated v => some ⟨some v⟩
      | .stateUpdated v => some ⟨some v⟩
      | _ => acc)
    s

/-- CheckOutcome is the per-subscription tally bucket of `checkOnce`
(notify.ts line 392): which `stats` counter the subscription lands in. -/
inductive CheckOutcome where
  | noChange
  | updated
deriving DecidableEq, Repr

/-- Embeds the per-subscription change-detection step of `checkOnce`
(notify.ts lines 414-432), after a successful fetch returned `latest`:
absent state is seeded with `latest.version || ""` and counted `noChange`;
a falsy stored `lastVersion` is overwritten and counted `noChange`; an
equal version is counted `noChange` with no side effect; a differing
version invokes `sendUpdate` and then advances the state to
`latest.version`, counted `updated`.  `render` is the outcome of the
render/delivery work inside `sendUpdate`. -/
def checkOnceStep (state : Option StateRec) (latest : LatestRecord)
    (render : Except String Unit) : CheckOutcome × List NotifyEv :=
  match state with
  | none => (.noChange, [.stateCreated (jsOrStr latest.version "")])
  | some st =>
    if jsFalsyOptStr st.lastVersion then
      (.noChange, [.stateUpdated latest.version])
    else if st.lastVersion = some latest.version then
      (.noChange, [])
    else
      (.updated, [sendUpdate render, .stateUpdated latest.version])

/-- Embeds `checkOne` (notify.ts lines 441-476): the manual single-
subscription check.  `latestOpt` is the fetch result (`none` when the
platform returned no version), `forceSendAll` the broadcast flag.  Returns
the events performed in program order along with the `{sent, updated}`
result object. -/
def checkOne (state : Option StateRec) (latestOpt : Option LatestRecord)
    (forceSendAll : Bool) (render : Except String Unit) :
    List NotifyEv × Bool × Bool :=
  match latestOpt with
  | none => ([], false, false)
  | some latest =>
    match state with
    | none =>
      if forceSendAll then
        ([.stateCreated (jsOrStr latest.version ""), sendUpdate render,
          .stateUpdated (jsOrStr latest.version "")], true, true)
      else
        ([.stateCreated (jsOrStr latest.version "")], false, false)
    | some st =>
      if forceSendAll then
        ([sendUpdate render, .stateUpdated (jsOrStr latest.version "")], true, true)
      else if jsFalsyOptStr st.lastVersion then
        ([.stateUpdated (jsOrStr latest.version "")], false, false)
      else if st.lastVersion = some latest.version then
        ([], false, false)
      else
        ([sendUpdate render, .stateUpdated (jsOrStr latest.version "")], true, true)

/-- RawSub models a stored subscription entry `{platform, projectId,
interval}` inside a channel group (notify.ts config shape): `platform` and
`projectId` as raw strings, `interval` as the result of
`Number(sub?.interval)` (`none` is `NaN`). -/
structure RawSub where
  platform : String
  projectId : String
  interval : Option Int
deriving DecidableEq, Repr

/-- Group models a channel group `{channelId, enabled, subs}`: `enabled`
is `none` when the field is absent or non-boolean (the code tests
`group.enabled === false`, so only `some false` disables). -/
structure Group where
  channelId : String
  enabled : Option Bool
  subs : List RawSub
deriving DecidableEq, Repr

/-- NCfg models the notify plugin configuration: the master `enabled`
switch, the global default `interval` (as `Number(config.interval)`,
`none` is `NaN`) and the channel groups. -/
structure NCfg where
  enabled : Bool
  interval : Option Int
  groups : List Group
deriving DecidableEq, Repr

/-- SubView is the element type produced by `getConfigSubs` /
`getConfigSubsOrdered`: a normalized subscription with its effective
interval. -/
structure SubView where
  channelId : String
  platform : PlatformKey
  projectId : String
  interval : Int
deriving DecidableEq, Repr

/-- Drops leading whitespace characters from a character list. -/
def dropLeadWs : List Char → List Char
  | [] => []
  | c :: cs => if c.isWhitespace then dropLeadWs cs else c :: cs

/-- Embeds the JavaScript `String.prototype.trim()` used on project ids:
removes leading and trailing whitespace. -/
def jsTrim (s : String) : String :=
  ⟨(dropLeadWs (dropLeadWs s.data.reverse).reverse)⟩

/-- Embeds the per-subscription effective-interval computation
`Math.max(60 * 1000, rawInterval || Number(config.interval) || 30 * 60 * 1000)`
(notify.ts line 301). -/
def computeInterval (cfg : NCfg) (raw : Option Int) : Int :=
  max 60000 (jsOrNum raw (jsOrNum cfg.interval 1800000))

/-- Embeds `Number.isFinite(rawInterval) && rawInterval <= 0`
(notify.ts line 300): `NaN` is not finite. -/
def isFiniteNonpos : Option Int → Bool
  | none => false
  | some n => n ≤ 0

/-- Embeds the per-entry body of the subscription enumeration loop
(notify.ts lines 296-302): normalize the platform, trim the project id,
skip the entry when either is invalid or when the stored interval is a
finite number ≤ 0, otherwise emit the normalized subscription with its
effective interval. -/
def subViewOf (cfg : NCfg) (c : String) (s : RawSub) : Option SubView :=
  match normalizePlatform s.platform with
  | none => none
  | some pk =>
    let pid := jsTrim s.projectId
    if pid = "" then none
    else if isFiniteNonpos s.interval then none
    else some ⟨c, pk, pid, computeInterval cfg s.interval⟩

/-- Embeds the group filter `channelId && group.channelId !== channelId`
(notify.ts line 292): skip only when the requested channel id is truthy
and differs from that of the group. -/
def groupSkipByChannel (ch : Option String) (g : Group) : Bool :=
  match ch with
  | none => false
  | some c => if c = "" then false else g.channelId ≠ c

/-- Embeds the per-group body of the enumeration loop (notify.ts lines
290-303): skip groups with a falsy `channelId`, groups filtered out by the
requested channel, and groups with `enabled === false`; otherwise collect
the valid subscription entries of the group. -/
def groupSubViews (cfg : NCfg) (ch : Option String) (g : Group) :
    List SubView :=
  if g.channelId = "" then []
  else if groupSkipByChannel ch g then []
  else if g.enabled = some false then []
  else g.subs.filterMap (subViewOf cfg g.channelId)

/-- Embeds `getConfigSubs` (notify.ts lines 287-306): enumerate the
normalized subscriptions of all (or one requested) enabled channel
groups. -/
def getConfigSubs (cfg : NCfg) (channelId : Option String) : List SubView :=
  cfg.groups.flatMap (groupSubViews cfg channelId)

/-- Embeds `getConfigSubsOrdered` (notify.ts lines 308-327), whose source
body is character-for-character the body of `getConfigSubs`. -/
def getConfigSubsOrdered (cfg : NCfg) (channelId : Option String) :
    List SubView :=
  cfg.groups.flatMap (groupSubViews cfg channelId)

/-- CheckActionResult models the early dispatch of the `notify.check`
command action (notify.ts lines 627-663): rejection for a missing channel
context, the "no subscriptions" early return, or proceeding with the
enumerated target list. -/
inductive CheckActionResult where
  | noChannel
  | noSubs
  | proceeds (targets : List SubView)
deriving DecidableEq, Repr

/-- Embeds the enumeration-and-early-return prefix of the `notify.check`
action (notify.ts lines 631-636, invoked without a selection argument):
reject when the session has no channel, enumerate via
`getConfigSubsOrdered`, and return the "no subscriptions" response when
the list is empty — before any fetch or state access. -/
def notifyCheckAction (cfg : NCfg) (channelId : String) : CheckActionResult :=
  if channelId = "" then .noChannel
  else
    let list := getConfigSubsOrdered cfg (some channelId)
    if list.isEmpty then .noSubs else .proceeds list

theorem jsOrStr_empty (s : String) : jsOrStr s "" = s := by
  unfold jsOrStr
  split
  · simp_all
  · rfl

theorem notifyAttempts_send_pair (r : Except String Unit) (v : String) :
    notifyAttempts [sendUpdate r, .stateUpdated v] = 1 := by
  cases r <;> rfl

theorem applyEvents_send_pair (s : Option StateRec) (r : Except String Unit)
    (v : String) : applyEvents s [sendUpdate r, .stateUpdated v] = some ⟨some v⟩ := by
  cases r <;> rfl

/-- Concrete latest-version record used to instantiate hypotheses. -/
def sampleLatest : LatestRecord :=
  ⟨"ver-id-1", "2.0.0", "some changelog", some "2024-01-01", "mod.jar"⟩

/-- Claim C1: for a subscription whose persisted state has a non-empty
`lastVersion` equal to `v`, a non-forced check against a fetched latest
record invokes the notification side effect exactly when the fetched
`version` label differs from `v` under exact string equality; on equality
nothing is sent, the outcome is `noChange` and the state is unchanged; on
difference the outcome is `updated` and the state becomes the fetched
version; and no field of the latest record other than `version` influences
the result of the step. -/
theorem checkOnce_change_iff_version_differs
    (v : String) (hv : v ≠ "") (latest : LatestRecord)
    (render : Except String Unit) :
    (notifyAttempts (checkOnceStep (some ⟨some v⟩) latest render).2 = 1
      ↔ latest.version ≠ v)
    ∧ (latest.version = v →
        checkOnceStep (some ⟨some v⟩) latest render = (.noChange, [])
        ∧ applyEvents (some ⟨some v⟩)
            (checkOnceStep (some ⟨some v⟩) latest render).2 = some ⟨some v⟩)
    ∧ (latest.version ≠ v →
        (checkOnceStep (some ⟨some v⟩) latest render).1 = .updated
        ∧ applyEvents (some ⟨some v⟩)
            (checkOnceStep (some ⟨some v⟩) latest render).2
          = some ⟨some latest.version⟩)
    ∧ (∀ latest2 : LatestRecord, latest2.version = latest.version →
        checkOnceStep (some ⟨some v⟩) latest2 render
          = checkOnceStep (some ⟨some v⟩) latest render) := by
  have hfal : jsFalsyOptStr (some v) = false := by
    simp [jsFalsyOptStr, hv]
  by_cases h : latest.version = v
  · refine ⟨?_, fun _ => ?_, fun hne => absurd h hne, fun latest2 h2 => ?_⟩
    · simp [checkOnceStep, hfal, h, notifyAttempts]
    · constructor
      · simp [checkOnceStep, hfal, h]
      · simp [checkOnceStep, hfal, h, applyEvents]
    · simp [checkOnceStep, hfal, h, h2]
  · have h' : ¬ v = latest.version := fun e => h e.symm
    refine ⟨?_, fun heq => absurd heq h, fun _ => ⟨?_, ?_⟩, fun latest2 h2 => ?_⟩
    · simp only [checkOnceStep, hfal, Bool.false_eq_true, if_false,
        Option.some.injEq, h', Ne, h, not_false_iff, iff_true]
      simpa using notifyAttempts_send_pair render latest.version
    · simp [checkOnceStep, hfal, h']
    · simp only [checkOnceStep, hfal, Bool.false_eq_true, if_false,
        Option.some.injEq, h', if_neg]
      simpa using applyEvents_send_pair (some ⟨some v⟩) render latest.version
    · simp [checkOnceStep, hfal, h', h2]

theorem checkOnce_change_iff_version_differs_witness :
    ("1.0.0" : String) ≠ ""
    ∧ (notifyAttempts
        (checkOnceStep (some ⟨some "1.0.0"⟩) sampleLatest (.ok ())).2 = 1
      ↔ sampleLatest.version ≠ "1.0.0") :=
  ⟨by decide,
   (checkOnce_change_iff_version_differs "1.0.0" (by decide) sampleLatest
      (.ok ())).1⟩

/-- Claim C2 counterexample: with stored version `"1.0.0"` and fetched version
`"2.0.0"`, a render/delivery failure inside the notification side effect is
caught in `sendUpdate` (the `notifyFailed` event) and the persisted state
IS still advanced to `"2.0.0"` — refuting the claim that a throwing
notification prevents the state update. -/
theorem checkOnce_throw_still_advances_cex :
    (checkOnceStep (some ⟨some "1.0.0"⟩) sampleLatest
        (.error "render failed")).2
      = [.notifyFailed "render failed", .stateUpdated "2.0.0"]
    ∧ applyEvents (some ⟨some "1.0.0"⟩)
        (checkOnceStep (some ⟨some "1.0.0"⟩) sampleLatest
          (.error "render failed")).2
      = some ⟨some "2.0.0"⟩
    ∧ some (⟨some "2.0.0"⟩ : StateRec) ≠ some (⟨some "1.0.0"⟩ : StateRec) := by
  refine ⟨by decide, by decide, by decide⟩

/-- Claim C2 amended: a render or delivery exception in the notification path is
caught and logged inside `sendUpdate` and does not propagate; the
per-subscription check still advances the persisted state to the fetched
version, so the same version change is NOT detected again on the next
eligible tick. -/
theorem checkOnce_notify_exception_swallowed
    (v : String) (hv : v ≠ "") (latest : LatestRecord) (msg : String)
    (hne : latest.version ≠ v) :
    checkOnceStep (some ⟨some v⟩) latest (.error msg)
      = (.updated, [.notifyFailed msg, .stateUpdated latest.version])
    ∧ applyEvents (some ⟨some v⟩)
        (checkOnceStep (some ⟨some v⟩) latest (.error msg)).2
      = some ⟨some latest.version⟩ := by
  have hfal : jsFalsyOptStr (some v) = false := by
    simp [jsFalsyOptStr, hv]
  have hne' : ¬ v = latest.version := fun e => hne e.symm
  constructor
  · simp [checkOnceStep, hfal, hne', sendUpdate]
  · simp [checkOnceStep, hfal, hne', sendUpdate, applyEvents]

theorem checkOnce_notify_exception_swallowed_witness :
    ("1.0.0" : String) ≠ "" ∧ sampleLatest.version ≠ "1.0.0"
    ∧ checkOnceStep (some ⟨some "1.0.0"⟩) sampleLatest (.error "boom")
        = (.updated, [.notifyFailed "boom", .stateUpdated sampleLatest.version]) :=
  ⟨by decide, by decide,
   (checkOnce_notify_exception_swallowed "1.0.0" (by decide) sampleLatest
      "boom" (by decide)).1⟩

/-- Claim C3: a non-forced check of a subscription with no persisted state sends
no notification, is tallied `noChange`, and seeds the state so that it
afterwards exists and equals the fetched version label. -/
theorem checkOnce_first_seed (latest : LatestRecord)
    (render : Except String Unit) :
    checkOnceStep none latest render
      = (.noChange, [.stateCreated (jsOrStr latest.version "")])
    ∧ notifyAttempts (checkOnceStep none latest render).2 = 0
    ∧ applyEvents none (checkOnceStep none latest render).2
      = some ⟨some latest.version⟩ := by
  refine ⟨rfl, rfl, ?_⟩
  simp [checkOnceStep, applyEvents, jsOrStr_empty]

/-- Claim C7: a forced (broadcast) `checkOne` with a successful fetch always
invokes the notification side effect exactly once and always updates the
state to the fetched version, whatever the prior state: when state is
absent it is created first and the notification is still sent afterwards,
and when state already equals the latest version exactly one notification
is still sent. -/
theorem checkOne_force_always_sends
    (state : Option StateRec) (latest : LatestRecord)
    (render : Except String Unit) :
    (checkOne state (some latest) true render).2 = (true, true)
    ∧ notifyAttempts (checkOne state (some latest) true render).1 = 1
    ∧ applyEvents state (checkOne state (some latest) true render).1
      = some ⟨some latest.version⟩
    ∧ checkOne none (some latest) true render
        = ([.stateCreated (jsOrStr latest.version ""), sendUpdate render,
            .stateUpdated (jsOrStr latest.version "")], true, true)
    ∧ ∀ st : StateRec, checkOne (some st) (some latest) true render
        = ([sendUpdate render, .stateUpdated (jsOrStr latest.version "")],
           true, true) := by
  refine ⟨?_, ?_, ?_, rfl, fun st => rfl⟩
  · cases state <;> rfl
  · cases state <;> cases render <;> simp [checkOne, sendUpdate, notifyAttempts]
  · cases state <;> cases render <;>
      simp [checkOne, sendUpdate, applyEvents, jsOrStr_empty]

theorem subViewOf_interval_ge (cfg : NCfg) (c : String) (s : RawSub)
    (v : SubView) (h : subViewOf cfg c s = some v) : 60000 ≤ v.interval := by
  unfold subViewOf at h
  rcases hp : normalizePlatform s.platform with _ | pk
  · rw [hp] at h
    exact absurd h (by simp)
  · rw [hp] at h
    simp only at h
    split at h
    · exact absurd h (by simp)
    · split at h
      · exact absurd h (by simp)
      · have hv := Option.some.inj h
        rw [← hv]
        exact le_max_left _ _

/-- Claim C4 amended: every subscription produced by the enumeration has an
effective interval of at least 60 000 ms; an unset (`NaN`) stored interval
falls back to the global default (itself defaulting to 30 minutes); but a
stored interval that is a finite number ≤ 0 causes the entry to be skipped
entirely — such a subscription is excluded from the enumeration and does
not participate in checks. -/
theorem subs_interval_normalization (cfg : NCfg) (ch : Option String) :
    (∀ v ∈ getConfigSubs cfg ch, 60000 ≤ v.interval)
    ∧ (∀ c s pk, normalizePlatform s.platform = some pk →
        jsTrim s.projectId ≠ "" → s.interval = none →
        subViewOf cfg c s
          = some ⟨c, pk, jsTrim s.projectId,
              max 60000 (jsOrNum cfg.interval 1800000)⟩)
    ∧ (∀ c s n, s.interval = some n → n ≤ 0 → subViewOf cfg c s = none) := by
  refine ⟨?_, ?_, ?_⟩
  · intro v hv
    rw [getConfigSubs, List.mem_flatMap] at hv
    obtain ⟨g, _, hvg⟩ := hv
    rw [groupSubViews] at hvg
    split at hvg
    · exact absurd hvg (by simp)
    · split at hvg
      · exact absurd hvg (by simp)
      · split at hvg
        · exact absurd hvg (by simp)
        · rw [List.mem_filterMap] at hvg
          obtain ⟨s, _, hs⟩ := hvg
          exact subViewOf_interval_ge cfg g.channelId s v hs
  · intro c s pk hpk hpid hint
    rw [subViewOf, hpk]
    simp only [hint]
    rw [if_neg hpid]
    rfl
  · intro c s n hn hle
    rw [subViewOf]
    rcases hp : normalizePlatform s.platform with _ | pk
    · rfl
    · simp only
      split
      · rfl
      · rw [if_pos]
        simp [isFiniteNonpos, hn, hle]

/-- Concrete configuration whose single enabled group holds one stored
subscription with interval −1. -/
def cexNonposGroup : Group := ⟨"chan-1", some true, [⟨"mr", "proj-1", some (-1)⟩]⟩

/-- Configuration wrapping `cexNonposGroup`. -/
def cexNonposCfg : NCfg := ⟨true, none, [cexNonposGroup]⟩

/-- Claim C4 counterexample: a stored subscription whose interval is the finite
number −1 is not given the default interval — it is excluded from the
enumeration altogether, so it does not participate in checks, refuting the
claim that a finite interval ≤ 0 is treated as "use default" with the
subscription still participating. -/
theorem interval_nonpos_excluded_cex :
    getConfigSubs cexNonposCfg none = []
    ∧ cexNonposGroup.subs = [⟨"mr", "proj-1", some (-1)⟩]
    ∧ cexNonposGroup.enabled ≠ some false := by
  refine ⟨by decide, by decide, by decide⟩

/-- Configuration used to instantiate the interval-normalization theorem:
a global default of 5 ms (below the floor) and one entry with an unset
interval and an untrimmed project id. -/
def wNormalCfg : NCfg := ⟨true, some 5, [⟨"chan-3", none, [⟨"cf", " p3 ", none⟩]⟩]⟩

theorem subs_interval_normalization_witness :
    (⟨"chan-3", PlatformKey.cf, "p3", 60000⟩ : SubView)
        ∈ getConfigSubs wNormalCfg none
    ∧ 60000 ≤ (⟨"chan-3", PlatformKey.cf, "p3", 60000⟩ : SubView).interval
    ∧ subViewOf wNormalCfg "chan-3" ⟨"cf", " p3 ", none⟩
        = some ⟨"chan-3", .cf, jsTrim " p3 ",
            max 60000 (jsOrNum wNormalCfg.interval 1800000)⟩
    ∧ subViewOf wNormalCfg "chan-3" ⟨"mr", "p4", some 0⟩ = none :=
  ⟨by decide,
   (subs_interval_normalization wNormalCfg none).1 _ (by decide),
   (subs_interval_normalization wNormalCfg none).2.1 "chan-3"
     ⟨"cf", " p3 ", none⟩ .cf (by decide) (by decide) rfl,
   (subs_interval_normalization wNormalCfg none).2.2 "chan-3"
     ⟨"mr", "p4", some 0⟩ 0 rfl (by decide)⟩

/-- Claim C9: the enumeration `getConfigSubs` used by the scheduler and
the enumeration `getConfigSubsOrdered` used by the manual command (two source functions with
identical bodies) return identical lists for every configuration and every
optional channel filter. -/
theorem getConfigSubsOrdered_extensionally_eq (cfg : NCfg)
    (ch : Option String) :
    getConfigSubsOrdered cfg ch = getConfigSubs cfg ch := rfl

/-- Claim C10: when every group stored for a channel has its enabled flag set to
false, the subscription enumeration for that channel is empty, so the
manual `notify.check` command takes the "no subscriptions" early return —
before any fetch or state mutation — even though the group may hold stored
subscriptions. -/
theorem disabled_group_manual_check_no_subs (cfg : NCfg) (c : String)
    (hc : c ≠ "")
    (hdis : ∀ g ∈ cfg.groups, g.channelId = c → g.enabled = some false) :
    getConfigSubsOrdered cfg (some c) = []
    ∧ notifyCheckAction cfg c = .noSubs := by
  have hnil : getConfigSubsOrdered cfg (some c) = [] := by
    rw [getConfigSubsOrdered, List.flatMap_eq_nil_iff]
    intro g hg
    rw [groupSubViews]
    by_cases h1 : g.channelId = ""
    · simp [h1]
    · by_cases h2 : g.channelId = c
      · have hen := hdis g hg h2
        have hskip : groupSkipByChannel (some c) g = false := by
          simp [groupSkipByChannel, hc, h2]
        simp [h1, hskip, hen]
      · have hskip : groupSkipByChannel (some c) g = true := by
          simp [groupSkipByChannel, hc, h2]
        simp [h1, hskip]
  refine ⟨hnil, ?_⟩
  rw [notifyCheckAction, if_neg hc]
  simp [hnil]

/-- Concrete disabled channel group holding one stored subscription. -/
def cexDisabledGroup : Group := ⟨"chan-2", some false, [⟨"mr", "proj-2", none⟩]⟩

/-- Configuration wrapping `cexDisabledGroup`. -/
def cexDisabledCfg : NCfg := ⟨true, none, [cexDisabledGroup]⟩

theorem disabled_group_manual_check_no_subs_witness :
    ("chan-2" : String) ≠ ""
    ∧ (∀ g ∈ cexDisabledCfg.groups,
        g.channelId = "chan-2" → g.enabled = some false)
    ∧ cexDisabledGroup.subs ≠ []
    ∧ notifyCheckAction cexDisabledCfg "chan-2" = .noSubs :=
  ⟨by decide, by decide, by decide,
   (disabled_group_manual_check_no_subs cexDisabledCfg "chan-2" (by decide)
      (by decide)).2⟩

/-- Association-list lookup modelling `Map.prototype.get` on the
in-memory `lastCheckMap`. -/
def lookupTs (m : List (String × Int)) (k : String) : Option Int :=
  (m.find? (fun p => p.1 = k)).map (fun p => p.2)

/-- Association-list update modelling `Map.prototype.set`: replace the
binding in place when the key is present, append otherwise. -/
def setTs : List (String × Int) → String → Int → List (String × Int)
  | [], k, v => [(k, v)]
  | p :: rest, k, v => if p.1 = k then (k, v) :: rest else p :: setTs rest k v

/-- Embeds the eligibility gate at the head of the per-subscription loop
of `checkOnce` (notify.ts lines 395-402): read
`lastCheckMap.get(key) || 0`, skip the subscription (no fetch, map
untouched) when the check is not forced and `now - lastCheck < interval`,
otherwise record `now` as the last-check timestamp immediately before the
platform fetch and proceed.  Returns whether the fetch is performed,
together with the updated map. -/
def checkGate (force : Bool) (now : Int) (m : List (String × Int))
    (key : String) (interval : Int) : Bool × List (String × Int) :=
  let lastCheck := jsOrNum (lookupTs m key) 0
  if !force && now - lastCheck < interval then (false, m)
  else (true, setTs m key now)

theorem jsOrNum_some_zero (t : Int) : jsOrNum (some t) 0 = t := by
  simp only [jsOrNum]
  split <;> omega

theorem lookupTs_cons (p : String × Int) (l : List (String × Int))
    (k : String) :
    lookupTs (p :: l) k = if p.1 = k then some p.2 else lookupTs l k := by
  by_cases h : p.1 = k <;> simp [lookupTs, List.find?_cons, h]

theorem lookupTs_setTs (m : List (String × Int)) (k : String) (v : Int) :
    lookupTs (setTs m k v) k = some v := by
  induction m with
  | nil => simp [setTs, lookupTs, List.find?]
  | cons p rest ih =>
    by_cases h : p.1 = k
    · simp [setTs, h, lookupTs_cons]
    · rw [setTs]
      rw [if_neg h, lookupTs_cons, if_neg h]
      exact ih

/-- Claim C5: for the per-subscription gate of the scheduler — with effective
interval `I` and recorded last-check time `t0`, a non-forced check
performs no fetch and leaves the map untouched while `now < t0 + I`
(counted as skipped); a subscription with no recorded timestamp is
eligible immediately (for any wall-clock time at least `I`, which holds
for epoch-milliseconds clocks); a forced check always fetches; and every
non-skipped check records `now` as the timestamp of the key immediately before
the fetch. -/
theorem scheduler_eligibility_gate (now t0 interval : Int)
    (m : List (String × Int)) (key : String) :
    (lookupTs m key = some t0 → now < t0 + interval →
      checkGate false now m key interval = (false, m))
    ∧ (lookupTs m key = none → interval ≤ now →
      (checkGate false now m key interval).1 = true)
    ∧ (checkGate true now m key interval).1 = true
    ∧ (∀ f : Bool, (checkGate f now m key interval).1 = true →
      lookupTs (checkGate f now m key interval).2 key = some now) := by
  refine ⟨?_, ?_, ?_, ?_⟩
  · intro hfound hlt
    rw [checkGate]
    simp only [hfound, jsOrNum_some_zero]
    rw [if_pos]
    simp only [Bool.not_false, Bool.true_and, decide_eq_true_eq]
    omega
  · intro habsent hge
    rw [checkGate]
    simp only [habsent, jsOrNum]
    rw [if_neg]
    simp only [Bool.not_false, Bool.true_and, decide_eq_true_eq]
    omega
  · rw [checkGate]
    simp
  · intro f hf
    rw [checkGate] at hf ⊢
    by_cases hcond :
        (!f && decide (now - jsOrNum (lookupTs m key) 0 < interval)) = true
    · rw [if_pos hcond] at hf
      exact absurd hf (by simp)
    · rw [if_neg hcond] at hf ⊢
      simpa using lookupTs_setTs m key now

theorem scheduler_eligibility_gate_witness :
    lookupTs [("chan|mr|proj", 1000)] "chan|mr|proj" = some 1000
    ∧ (1500 : Int) < 1000 + 60000
    ∧ checkGate false 1500 [("chan|mr|proj", 1000)] "chan|mr|proj" 60000
        = (false, [("chan|mr|proj", 1000)])
    ∧ (checkGate false 70000 [] "chan|mr|proj" 60000).1 = true
    ∧ (checkGate true 1500 [("chan|mr|proj", 1000)] "chan|mr|proj" 60000).1
        = true
    ∧ lookupTs
        (checkGate true 1500 [("chan|mr|proj", 1000)] "chan|mr|proj" 60000).2
        "chan|mr|proj" = some 1500 :=
  ⟨by decide, by decide,
   (scheduler_eligibility_gate 1500 1000 60000 [("chan|mr|proj", 1000)]
      "chan|mr|proj").1 (by decide) (by decide),
   (scheduler_eligibility_gate 70000 0 60000 [] "chan|mr|proj").2.1
     (by decide) (by decide),
   (scheduler_eligibility_gate 1500 0 60000 [("chan|mr|proj", 1000)]
      "chan|mr|proj").2.2.1,
   (scheduler_eligibility_gate 1500 0 60000 [("chan|mr|proj", 1000)]
      "chan|mr|proj").2.2.2 true
     (scheduler_eligibility_gate 1500 0 60000 [("chan|mr|proj", 1000)]
        "chan|mr|proj").2.2.1⟩

theorem dropLeadWs_head (l : List Char) (c : Char) (cs : List Char)
    (h : dropLeadWs l = c :: cs) : c.isWhitespace = false := by
  induction l with
  | nil => exact absurd h (by simp [dropLeadWs])
  | cons a as ih =>
    rw [dropLeadWs] at h
    by_cases hw : a.isWhitespace
    · rw [if_pos hw] at h
      exact ih h
    · rw [if_neg hw] at h
      cases h
      simpa using hw

theorem dropLeadWs_of_head (l : List Char)
    (h : ∀ c cs, l = c :: cs → c.isWhitespace = false) : dropLeadWs l = l := by
  cases l with
  | nil => rfl
  | cons a as =>
    rw [dropLeadWs, if_neg]
    simp [h a as rfl]

theorem dropLeadWs_suffix (l : List Char) : dropLeadWs l <:+ l := by
  induction l with
  | nil => exact List.suffix_refl _
  | cons a as ih =>
    rw [dropLeadWs]
    by_cases hw : a.isWhitespace
    · rw [if_pos hw]
      exact ih.trans (List.suffix_cons a as)
    · rw [if_neg hw]

theorem jsTrim_idem (s : String) : jsTrim (jsTrim s) = jsTrim s := by
  show String.mk (dropLeadWs
      (dropLeadWs (dropLeadWs (dropLeadWs s.data.reverse).reverse).reverse).reverse)
    = String.mk (dropLeadWs (dropLeadWs s.data.reverse).reverse)
  congr 1
  by_cases ht : dropLeadWs (dropLeadWs s.data.reverse).reverse = []
  · rw [ht]
    rfl
  · have hhead2 : ∀ c cs,
        dropLeadWs (dropLeadWs s.data.reverse).reverse = c :: cs →
        c.isWhitespace = false := fun c cs hc => dropLeadWs_head _ c cs hc
    have hstep1 : dropLeadWs
        (dropLeadWs (dropLeadWs s.data.reverse).reverse).reverse
        = (dropLeadWs (dropLeadWs s.data.reverse).reverse).reverse := by
      apply dropLeadWs_of_head
      intro d ds hd
      have hgl : (dropLeadWs (dropLeadWs s.data.reverse).reverse).getLast?
          = some d := by
        rw [← List.head?_reverse, hd]
        rfl
      obtain ⟨w, hw⟩ := dropLeadWs_suffix (dropLeadWs s.data.reverse).reverse
      have hgl2 : ((dropLeadWs s.data.reverse).reverse).getLast? = some d := by
        rw [← hw, List.getLast?_append_of_ne_nil w ht, hgl]
      have hhd : (dropLeadWs s.data.reverse).head? = some d := by
        rw [← List.getLast?_reverse]
        exact hgl2
      cases hu2 : dropLeadWs s.data.reverse with
      | nil =>
        rw [hu2] at hhd
        exact absurd hhd (by simp)
      | cons b bs =>
        rw [hu2] at hhd
        have hb : b = d := by simpa using hhd
        have hbw := dropLeadWs_head s.data.reverse b bs hu2
        rw [← hb]
        exact hbw
    rw [hstep1, List.reverse_reverse]
    exact dropLeadWs_of_head _ hhead2

/-- Embeds the duplicate test applied to each stored entry by the add
action (notify.ts line 544):
`normalizePlatform(s?.platform) === platformKey && String(s?.projectId || "").trim() === pid`. -/
def subPairMatches (pk : PlatformKey) (pid : String) (s : RawSub) : Bool :=
  decide (normalizePlatform s.platform = some pk)
    && decide (jsTrim s.projectId = pid)

/-- Embeds `list.some(...)` over the duplicate test (notify.ts line 544). -/
def subExists (pk : PlatformKey) (pid : String) (l : List RawSub) : Bool :=
  l.any (subPairMatches pk pid)

/-- Embeds the field normalization `ensureGroup` applies to an existing
group (notify.ts lines 274-275): a non-boolean `enabled` becomes `true`
(`subs` is already a list in this embedding). -/
def normGroup (g : Group) : Group :=
  { g with enabled := match g.enabled with | none => some true | some b => some b }

/-- Embeds `ensureGroup` (notify.ts lines 267-277) combined with the
duplicate check and push of the add action (notify.ts lines 542-548):
find the first group with the requested channel id (appending a fresh
enabled group at the end when none exists), then either report the pair as
already present or append the new entry to the subscription list of that
group.  Returns the updated group list and whether the pair already
existed. -/
def ensureAndAdd (c : String) (pk : PlatformKey) (pid : String)
    (entry : RawSub) : List Group → List Group × Bool
  | [] => ([⟨c, some true, [entry]⟩], false)
  | g :: gs =>
    if g.channelId = c then
      if subExists pk pid g.subs then (normGroup g :: gs, true)
      else ({ normGroup g with subs := g.subs ++ [entry] } :: gs, false)
    else
      let r := ensureAndAdd c pk pid entry gs
      (g :: r.1, r.2)

/-- AddOutcome models the user-facing responses of the `notify.add`
action (notify.ts lines 531-551). -/
inductive AddOutcome where
  | missingArgs
  | badPlatform
  | emptyProjectId
  | alreadyExists (pk : PlatformKey) (pid : String)
  | added (pk : PlatformKey) (pid : String)
deriving DecidableEq, Repr

/-- AddResult bundles the group list after the add action, the response,
and whether `saveConfigToFile` was invoked. -/
structure AddResult where
  groups : List Group
  outcome : AddOutcome
  saved : Bool
deriving DecidableEq, Repr

/-- Embeds the `notify.add` action body (notify.ts lines 531-551), after
the session-channel and permission gates: argument checks, platform
normalization, project-id trimming, `ensureGroup`, duplicate rejection
(which returns before anything is written), or append plus
`saveConfigToFile`. -/
def notifyAdd (cfg : NCfg) (c platform projectId : String) : AddResult :=
  if platform = "" ∨ projectId = "" then ⟨cfg.groups, .missingArgs, false⟩
  else
    match normalizePlatform platform with
    | none => ⟨cfg.groups, .badPlatform, false⟩
    | some pk =>
      let pid := jsTrim projectId
      if pid = "" then ⟨cfg.groups, .emptyProjectId, false⟩
      else
        let interval := max 60000 (jsOrNum cfg.interval 1800000)
        let entry : RawSub := ⟨pk.toStr, pid, some interval⟩
        let r := ensureAndAdd c pk pid entry cfg.groups
        if r.2 then ⟨r.1, .alreadyExists pk pid, false⟩
        else ⟨r.1, .added pk pid, true⟩

/-- Normalized identity of a stored entry: its platform key and trimmed
project id, or `none` for an entry with an unknown platform. -/
def pairKey (s : RawSub) : Option (PlatformKey × String) :=
  (normalizePlatform s.platform).map (fun pk => (pk, jsTrim s.projectId))

/-- Uniqueness invariant of a channel group: no two stored entries share
the same normalized (platform, projectId) pair. -/
def UniqueSubs (g : Group) : Prop := (g.subs.filterMap pairKey).Nodup

theorem normalizePlatform_toStr (pk : PlatformKey) :
    normalizePlatform pk.toStr = some pk := by
  cases pk <;> decide

theorem subExists_false_not_mem (pk : PlatformKey) (pid : String)
    (l : List RawSub) (h : subExists pk pid l = false) :
    (pk, pid) ∉ l.filterMap pairKey := by
  intro hmem
  rw [List.mem_filterMap] at hmem
  obtain ⟨s, hs, hps⟩ := hmem
  rw [pairKey] at hps
  cases hnp : normalizePlatform s.platform with
  | none =>
    rw [hnp] at hps
    exact absurd hps (by simp)
  | some pk2 =>
    rw [hnp] at hps
    have hps2 : pk2 = pk ∧ jsTrim s.projectId = pid := by
      simpa [Prod.ext_iff] using hps
    have hmatch : subPairMatches pk pid s = true := by
      simp [subPairMatches, hnp, hps2.1, hps2.2]
    have : subExists pk pid l = true :=
      List.any_eq_true.mpr ⟨s, hs, hmatch⟩
    rw [h] at this
    exact absurd this (by simp)

theorem ensureAndAdd_exists (c : String) (pk : PlatformKey) (pid : String)
    (entry : RawSub) (groups : List Group) (g : Group)
    (hfind : groups.find? (fun g2 => g2.channelId = c) = some g)
    (hex : subExists pk pid g.subs = true) :
    (ensureAndAdd c pk pid entry groups).2 = true
    ∧ (ensureAndAdd c pk pid entry groups).1.map Group.subs
      = groups.map Group.subs := by
  induction groups with
  | nil => exact absurd hfind (by simp)
  | cons h0 rest ih =>
    by_cases hc : h0.channelId = c
    · have hg : g = h0 := by
        rw [List.find?_cons_of_pos _ (by simpa using hc)] at hfind
        exact (Option.some.inj hfind).symm
      subst hg
      rw [ensureAndAdd, if_pos hc, if_pos hex]
      exact ⟨rfl, rfl⟩
    · rw [List.find?_cons_of_neg _ (by simpa using hc)] at hfind
      obtain ⟨ih1, ih2⟩ := ih hfind
      rw [ensureAndAdd, if_neg hc]
      refine ⟨ih1, ?_⟩
      simpa using ih2

theorem ensureAndAdd_unique (c : String) (pk : PlatformKey) (pid : String)
    (entry : RawSub) (hkey : pairKey entry = some (pk, pid))
    (groups : List Group) (hall : ∀ g ∈ groups, UniqueSubs g) :
    ∀ g' ∈ (ensureAndAdd c pk pid entry groups).1, UniqueSubs g' := by
  revert hall
  induction groups with
  | nil =>
    intro _ g' hg'
    rw [ensureAndAdd] at hg'
    have hg2 : g' = ⟨c, some true, [entry]⟩ := by simpa using hg'
    subst hg2
    rw [UniqueSubs]
    simp [hkey]
  | cons h0 rest ih =>
    intro hall g' hg'
    rw [ensureAndAdd] at hg'
    by_cases hc : h0.channelId = c
    · rw [if_pos hc] at hg'
      by_cases hex : subExists pk pid h0.subs = true
      · rw [if_pos hex] at hg'
        rcases List.mem_cons.mp hg' with h | h
        · rw [h]
          exact hall h0 (List.mem_cons_self _ _)
        · exact hall g' (List.mem_cons_of_mem h0 h)
      · rw [if_neg hex] at hg'
        rcases List.mem_cons.mp hg' with h | h
        · rw [h, UniqueSubs]
          show ((h0.subs ++ [entry]).filterMap pairKey).Nodup
          rw [List.filterMap_append]
          have hsingle : [entry].filterMap pairKey = [(pk, pid)] := by
            simp [hkey]
          rw [hsingle, List.nodup_append]
          refine ⟨hall h0 (List.mem_cons_self _ _), List.nodup_singleton _, ?_⟩
          intro a ha hb
          have hb2 : a = (pk, pid) := by simpa using hb
          subst hb2
          have hex2 : subExists pk pid h0.subs = false := by
            simpa using hex
          exact subExists_false_not_mem pk pid h0.subs hex2 ha
        · exact hall g' (List.mem_cons_of_mem h0 h)
    · rw [if_neg hc] at hg'
      rcases List.mem_cons.mp hg' with h | h
      · rw [h]
        exact hall h0 (List.mem_cons_self _ _)
      · exact ih (fun g hg => hall g (List.mem_cons_of_mem h0 hg)) g' h

instance (g : Group) : Decidable (UniqueSubs g) := by
  unfold UniqueSubs
  exact List.nodupDecidable _

/-- Claim C6: the `notify.add` action preserves per-channel uniqueness of the
normalized (platform, projectId) pair and is a no-op on duplicates: when
the group of the channel already contains the pair (after platform
normalization and project-id trimming), the action returns the "already
exists" outcome, writes nothing to storage, and leaves the subscription
list of every group unchanged; and whenever every group satisfies the
uniqueness invariant before the action, every group still satisfies it
afterwards. -/
theorem notifyAdd_unique_and_noop (cfg : NCfg) (c platform projectId : String)
    (pk : PlatformKey)
    (hplat : normalizePlatform platform = some pk)
    (hpid : jsTrim projectId ≠ "") :
    (∀ g0, cfg.groups.find? (fun g2 => g2.channelId = c) = some g0 →
        subExists pk (jsTrim projectId) g0.subs = true →
        (notifyAdd cfg c platform projectId).outcome
            = .alreadyExists pk (jsTrim projectId)
        ∧ (notifyAdd cfg c platform projectId).saved = false
        ∧ (notifyAdd cfg c platform projectId).groups.map Group.subs
            = cfg.groups.map Group.subs)
    ∧ ((∀ g0 ∈ cfg.groups, UniqueSubs g0) →
        ∀ g' ∈ (notifyAdd cfg c platform projectId).groups, UniqueSubs g') := by
  have hpne : platform ≠ "" := by
    intro h
    rw [h, show normalizePlatform "" = none from by decide] at hplat
    exact Option.noConfusion hplat
  have hprojne : projectId ≠ "" := by
    intro h
    apply hpid
    rw [h]
    rfl
  have hnotmiss : ¬(platform = "" ∨ projectId = "") := by
    push_neg
    exact ⟨hpne, hprojne⟩
  have hadd : notifyAdd cfg c platform projectId
      = (if (ensureAndAdd c pk (jsTrim projectId)
              ⟨pk.toStr, jsTrim projectId,
                some (max 60000 (jsOrNum cfg.interval 1800000))⟩ cfg.groups).2
          then ⟨(ensureAndAdd c pk (jsTrim projectId)
              ⟨pk.toStr, jsTrim projectId,
                some (max 60000 (jsOrNum cfg.interval 1800000))⟩ cfg.groups).1,
              .alreadyExists pk (jsTrim projectId), false⟩
          else ⟨(ensureAndAdd c pk (jsTrim projectId)
              ⟨pk.toStr, jsTrim projectId,
                some (max 60000 (jsOrNum cfg.interval 1800000))⟩ cfg.groups).1,
              .added pk (jsTrim projectId), true⟩) := by
    rw [notifyAdd, if_neg hnotmiss]
    simp only [hplat, if_neg hpid]
  constructor
  · intro g0 hfind hex
    obtain ⟨h1, h2⟩ := ensureAndAdd_exists c pk (jsTrim projectId)
      ⟨pk.toStr, jsTrim projectId,
        some (max 60000 (jsOrNum cfg.interval 1800000))⟩ cfg.groups g0 hfind hex
    rw [hadd, if_pos h1]
    exact ⟨rfl, rfl, h2⟩
  · intro hall g' hg'
    have hkey : pairKey
        (⟨pk.toStr, jsTrim projectId,
          some (max 60000 (jsOrNum cfg.interval 1800000))⟩ : RawSub)
        = some (pk, jsTrim projectId) := by
      rw [pairKey, normalizePlatform_toStr]
      simp [jsTrim_idem]
    have huniq := ensureAndAdd_unique c pk (jsTrim projectId)
      ⟨pk.toStr, jsTrim projectId,
        some (max 60000 (jsOrNum cfg.interval 1800000))⟩ hkey cfg.groups hall
    rw [hadd] at hg'
    by_cases hr : (ensureAndAdd c pk (jsTrim projectId)
        ⟨pk.toStr, jsTrim projectId,
          some (max 60000 (jsOrNum cfg.interval 1800000))⟩ cfg.groups).2 = true
    · rw [if_pos hr] at hg'
      exact huniq g' hg'
    · rw [if_neg hr] at hg'
      exact huniq g' hg'

/-- Channel group already holding the normalized pair (mr, projX). -/
def wAddGroup : Group := ⟨"chA", some true, [⟨"mr", "projX", some 60000⟩]⟩

/-- Configuration wrapping `wAddGroup`. -/
def wAddCfg : NCfg := ⟨true, none, [wAddGroup]⟩

theorem notifyAdd_unique_and_noop_witness :
    (notifyAdd wAddCfg "chA" "mr" " projX ").outcome
        = .alreadyExists .mr (jsTrim " projX ")
    ∧ (notifyAdd wAddCfg "chA" "mr" " projX ").saved = false
    ∧ (notifyAdd wAddCfg "chA" "mr" " projX ").groups.map Group.subs
        = wAddCfg.groups.map Group.subs
    ∧ ∀ g' ∈ (notifyAdd wAddCfg "chA" "mr" " projX ").groups, UniqueSubs g' := by
  have h := notifyAdd_unique_and_noop wAddCfg "chA" "mr" " projX " .mr
    (by decide) (by decide)
  have h1 := h.1 wAddGroup (by decide) (by decide)
  exact ⟨h1.1, h1.2.1, h1.2.2, h.2 (by decide)⟩

/-- Json models a parsed JSON document (the JavaScript value produced by
`JSON.parse` and consumed by `JSON.stringify`); integers suffice for the
numbers appearing in the files of this plugin. -/
inductive Json where
  | null
  | bool (b : Bool)
  | num (n : Int)
  | str (s : String)
  | arr (xs : List Json)
  | obj (fields : List (String × Json))

/-- Property access `fields[k]` on a parsed JSON object. -/
def lookupJ (fields : List (String × Json)) (k : String) : Option Json :=
  (fields.find? (fun p => p.1 = k)).map (fun p => p.2)

/-- Embeds the document written by `saveConfigToFile` (notify.ts lines
192-204): `{enabled: !!config.enabled, groups}`, with the in-memory
groups array stored verbatim. -/
def saveConfigDoc (enabled : Bool) (groups : List Json) : Json :=
  .obj [("enabled", .bool enabled), ("groups", .arr groups)]

/-- Embeds the body of `loadConfigFromFile` (notify.ts lines 177-185) on a
successfully parsed document: adopt `enabled` only when it is a boolean
and `groups` only when it is an array, keeping the current in-memory
values otherwise. -/
def loadConfigDoc (doc : Json) (curEnabled : Bool) (curGroups : List Json) :
    Bool × List Json :=
  match doc with
  | .obj fields =>
    ((match lookupJ fields "enabled" with
      | some (.bool b) => b
      | _ => curEnabled),
     (match lookupJ fields "groups" with
      | some (.arr xs) => xs
      | _ => curGroups))
  | _ => (curEnabled, curGroups)

/-- Embeds `loadConfigFromFile` (notify.ts lines 174-190) including its
at-most-once guard: a set `configLoaded` flag short-circuits the load. -/
def loadConfigFromFile (configLoaded : Bool) (doc : Json) (curEnabled : Bool)
    (curGroups : List Json) : Bool × List Json :=
  if configLoaded then (curEnabled, curGroups)
  else loadConfigDoc doc curEnabled curGroups

/-- Serialization of one state-cache value `{lastVersion: val.lastVersion}`
(notify.ts line 229): `JSON.stringify` drops an `undefined` field. -/
def encStateVal : Option Json → Json
  | none => .obj []
  | some j => .obj [("lastVersion", j)]

/-- Embeds the document written by `saveStateToFile` (notify.ts lines
222-236): one object field per state-cache entry, in map order. -/
def saveStateDoc (m : List (String × Option Json)) : Json :=
  .obj (m.map fun kv => (kv.1, encStateVal kv.2))

/-- Association-list update modelling `Map.prototype.set` on the state
cache: replace in place when present, append otherwise. -/
def mapSetS : List (String × Option Json) → String → Option Json →
    List (String × Option Json)
  | [], k, v => [(k, v)]
  | p :: rest, k, v => if p.1 = k then (k, v) :: rest else p :: mapSetS rest k v

/-- Embeds the per-key body of `loadStateFromFile` (notify.ts lines
214-217): `if (val && typeof val === "object")` admits objects and
arrays (`null` is falsy, primitives have other typeof results), and the
cache entry receives `val.lastVersion`; the serializer only ever emits
objects, and an array value (whose `lastVersion` access yields
`undefined`) stores `none`. -/
def loadStateStep (acc : List (String × Option Json)) (kv : String × Json) :
    List (String × Option Json) :=
  match kv.2 with
  | .obj f2 => mapSetS acc kv.1 (lookupJ f2 "lastVersion")
  | .arr _ => mapSetS acc kv.1 none
  | _ => acc

/-- Embeds the body of `loadStateFromFile` (notify.ts lines 209-219) on a
successfully parsed document: fold the entries of the document into the
in-memory cache; a non-object document leaves the cache unchanged. -/
def loadStateDoc (doc : Json) (cache : List (String × Option Json)) :
    List (String × Option Json) :=
  match doc with
  | .obj fields => fields.foldl loadStateStep cache
  | _ => cache

/-- Embeds `loadStateFromFile` (notify.ts lines 206-220) including its
at-most-once guard: a set `stateLoaded` flag short-circuits the load. -/
def loadStateFromFile (stateLoaded : Bool) (doc : Json)
    (cache : List (String × Option Json)) : List (String × Option Json) :=
  if stateLoaded then cache else loadStateDoc doc cache

theorem lookupJ_encStateVal (v : Option Json) :
    ∃ f2, encStateVal v = .obj f2 ∧ lookupJ f2 "lastVersion" = v := by
  cases v with
  | none => exact ⟨[], rfl, rfl⟩
  | some j => exact ⟨[("lastVersion", j)], rfl, by simp [lookupJ]⟩

theorem mapSetS_append (acc : List (String × Option Json)) (k : String)
    (v : Option Json) (h : ∀ p ∈ acc, p.1 ≠ k) :
    mapSetS acc k v = acc ++ [(k, v)] := by
  induction acc with
  | nil => rfl
  | cons p rest ih =>
    rw [mapSetS, if_neg (h p (List.mem_cons_self _ _))]
    rw [ih (fun q hq => h q (List.mem_cons_of_mem p hq))]
    rfl

theorem loadState_fold (m acc : List (String × Option Json))
    (hn : (m.map Prod.fst).Nodup)
    (hd : ∀ p ∈ acc, p.1 ∉ m.map Prod.fst) :
    (m.map fun kv => (kv.1, encStateVal kv.2)).foldl loadStateStep acc
      = acc ++ m := by
  induction m generalizing acc with
  | nil => simp
  | cons kv rest ih =>
    obtain ⟨f2, hf2, hlu⟩ := lookupJ_encStateVal kv.2
    rw [List.map_cons, List.foldl_cons]
    have hstep : loadStateStep acc (kv.1, encStateVal kv.2)
        = acc ++ [(kv.1, kv.2)] := by
      rw [loadStateStep]
      simp only [hf2, hlu]
      exact mapSetS_append acc kv.1 kv.2
        (fun p hp => fun he => hd p hp (by rw [he]; simp))
    rw [hstep]
    have hn2 : (rest.map Prod.fst).Nodup := (List.nodup_cons.mp hn).2
    have hk : kv.1 ∉ rest.map Prod.fst := (List.nodup_cons.mp hn).1
    have hd2 : ∀ p ∈ acc ++ [(kv.1, kv.2)], p.1 ∉ rest.map Prod.fst := by
      intro p hp
      rcases List.mem_append.mp hp with h | h
      · intro hmem
        exact hd p h (by simp [hmem])
      · have hpe : p = (kv.1, kv.2) := by simpa using h
        rw [hpe]
        exact hk
    rw [ih (acc ++ [(kv.1, kv.2)]) hn2 hd2]
    simp

/-- Claim C8: in a fresh process (both load-once flags unset), loading the
document written by the Config Store yields exactly the saved enabled
flag and the saved group list, and loading the document written by the
Version-State Store yields exactly the saved key-to-lastVersion map (the
state-cache keys are distinct, being keys of a `Map`): the JSON round
trip is the identity on the in-memory representations. -/
theorem persistence_round_trip (e : Bool) (gs : List Json) (ce : Bool)
    (cg : List Json) (m : List (String × Option Json))
    (hn : (m.map Prod.fst).Nodup) :
    loadConfigFromFile false (saveConfigDoc e gs) ce cg = (e, gs)
    ∧ loadStateFromFile false (saveStateDoc m) [] = m := by
  constructor
  · rfl
  · rw [loadStateFromFile, if_neg (by simp), saveStateDoc, loadStateDoc]
    have := loadState_fold m [] hn (by simp)
    simpa using this

theorem persistence_round_trip_witness :
    ((["k1", "k2"] : List String).Nodup)
    ∧ loadConfigFromFile false
        (saveConfigDoc true
          [Json.obj [("channelId", .str "c1"), ("enabled", .bool true),
            ("subs", .arr [])]])
        false [] = (true,
          [Json.obj [("channelId", .str "c1"), ("enabled", .bool true),
            ("subs", .arr [])]])
    ∧ loadStateFromFile false
        (saveStateDoc [("k1", some (.str "1.0")), ("k2", none)]) []
      = [("k1", some (.str "1.0")), ("k2", none)] := by
  have h := persistence_round_trip true
    [Json.obj [("channelId", .str "c1"), ("enabled", .bool true),
      ("subs", .arr [])]]
    false [] [("k1", some (.str "1.0")), ("k2", none)] (by decide)
  exact ⟨by decide, h.1, h.2⟩

end Notify
